import Mathlib

/-!
Shallow embedding of the inventory MCP server (src/main.py).

The SQLite database is modelled as an explicit state `DB`: the `items`
relation, the append-only `stock_history` relation, and the AUTOINCREMENT
counter for stock_history ids.  Timestamps (produced by `pendulum.now()`
in the source) are passed in as explicit string arguments, since the clock
is an external collaborator.  SQLite compares TEXT values bytewise; on the
ASCII timestamps used here this is the codepoint-lexicographic order
`lexLe` below.  Each tool returns the exact formatted string the source
returns, and a mutating tool additionally returns the successor state.
-/

namespace Inventory

structure Item where
  id : Nat
  name : String
  price : Int
  stock : Int
  created_at : String
  updated_at : String
deriving DecidableEq

structure StockEvent where
  id : Nat
  item_id : Nat
  delta : Int
  reason : String
  created_at : String
deriving DecidableEq

structure DB where
  items : List Item
  stock_history : List StockEvent
  next_event_id : Nat
deriving DecidableEq

/-- SELECT ... FROM items WHERE name=? (name is UNIQUE, so first match). -/
def findItemByName (db : DB) (name : String) : Option Item :=
  db.items.find? (fun it => it.name == name)

/-- Python `x or '-'` on an optional string: None and the empty string are falsy. -/
def orDash (reason : Option String) : String :=
  match reason with
  | none => "-"
  | some r => if r = "" then "-" else r

/-- Python `x or '-'` on a plain string. -/
def orDashStr (r : String) : String :=
  if r = "" then "-" else r

/-- The not-found message of lines 76 and 87 of src/main.py. -/
def notFoundMsg (name : String) : String :=
  "\x27" ++ name ++ "\x27(을)를 찾을 수 없습니다."

/-- The insufficient-stock message of line 92 of src/main.py. -/
def insufficientMsg (stock : Int) : String :=
  "재고 부족! 현재 재고: " ++ toString stock ++ "개"

/-- The success message of line 99 of src/main.py. -/
def chgSuccessMsg (name : String) (stock new_stock delta : Int) (reason : Option String) : String :=
  "\x27" ++ name ++ "\x27 재고가 " ++ toString stock ++ "개 → " ++ toString new_stock ++
    "개로 변경되었습니다. (변동: " ++ toString delta ++ ", 사유: " ++ orDash reason ++ " )"

/-- The lookup message of line 74 of src/main.py. -/
def lookupMsg (name : String) (price stock : Int) : String :=
  name ++ " | 가격: " ++ toString price ++ "원 | 재고: " ++ toString stock ++ "개"

/-- get_item_stock_price (lines 65-76 of src/main.py): read-only lookup. -/
def get_item_stock_price (db : DB) (name : String) : String :=
  match findItemByName db name with
  | some it => lookupMsg name it.price it.stock
  | none => notFoundMsg name

/-- change_item_stock (lines 78-99 of src/main.py).  `now` is the timestamp
`pendulum.now().to_datetime_string()` computed at line 93; the result is the
returned string together with the database state after the call. -/
def change_item_stock (db : DB) (name : String) (delta : Int) (reason : Option String)
    (now : String) : String × DB :=
  match findItemByName db name with
  | none => (notFoundMsg name, db)
  | some item =>
    let new_stock := item.stock + delta
    if new_stock < 0 then
      (insufficientMsg item.stock, db)
    else
      (chgSuccessMsg name item.stock new_stock delta reason,
       { items := db.items.map (fun it =>
           if it.id == item.id then { it with stock := new_stock, updated_at := now } else it),
         stock_history := db.stock_history ++
           [{ id := db.next_event_id, item_id := item.id, delta := delta,
              reason := reason.getD "", created_at := now }],
         next_event_id := db.next_event_id + 1 })

/-- Codepoint-lexicographic order on character lists: the order SQLite's
bytewise TEXT comparison induces on the ASCII timestamp strings. -/
def lexLe : List Char → List Char → Bool
  | [], _ => true
  | _ :: _, [] => false
  | a :: as, b :: bs =>
    if a.toNat < b.toNat then true
    else if b.toNat < a.toNat then false
    else lexLe as bs

/-- Timestamp comparison used by `BETWEEN ? AND ?` at line 116 of src/main.py. -/
def tsLe (a b : String) : Bool := lexLe a.data b.data

def isLeapYear (y : Nat) : Bool :=
  (y % 4 == 0 && y % 100 != 0) || y % 400 == 0

def daysInMonth (y m : Nat) : Nat :=
  if m = 2 then (if isLeapYear y then 29 else 28)
  else if m = 4 ∨ m = 6 ∨ m = 9 ∨ m = 11 then 30
  else 31

/-- Split a character list at every dash, keeping empty groups. -/
def splitDash : List Char → List (List Char)
  | [] => [[]]
  | c :: cs =>
    if c = '-' then [] :: splitDash cs
    else
      match splitDash cs with
      | [] => [[c]]
      | g :: gs => (c :: g) :: gs

/-- Left inverse of `splitDash`: rejoin the groups with dashes. -/
def joinDash : List (List Char) → List Char
  | [] => []
  | [g] => g
  | g :: gs => g ++ '-' :: joinDash gs

def digitsToNat (cs : List Char) : Nat :=
  cs.foldl (fun a c => a * 10 + (c.toNat - 48)) 0

def validNumGroup (cs : List Char) (len : Nat) : Bool :=
  cs.length == len && cs.all Char.isDigit

/-- Modelled from the spec: the date parsing done at lines 108-109 of
src/main.py by the external calendar collaborator (`pendulum.parse`), which
is not part of this repository.  Per the interface contract the input is a
calendar day in the form YYYY-MM-DD; the parser accepts exactly the
well-formed calendar dates (month 1-12, day within the month's length,
February 29 only in leap years) and rejects everything else. -/
def parseDate (s : String) : Option (Nat × Nat × Nat) :=
  match splitDash s.data with
  | [ys, ms, ds] =>
    if validNumGroup ys 4 && validNumGroup ms 2 && validNumGroup ds 2 then
      let y := digitsToNat ys
      let m := digitsToNat ms
      let d := digitsToNat ds
      if 1 ≤ m ∧ m ≤ 12 ∧ 1 ≤ d ∧ d ≤ daysInMonth y m then some (y, m, d) else none
    else none
  | _ => none

/-- `pendulum.parse(date).start_of('day').to_datetime_string()` for a
well-formed zero-padded YYYY-MM-DD input. -/
def dayStart (date : String) : String := date ++ " 00:00:00"

/-- `pendulum.parse(date).end_of('day').to_datetime_string()` for a
well-formed zero-padded YYYY-MM-DD input. -/
def dayEnd (date : String) : String := date ++ " 23:59:59"

/-- The WHERE clause of line 116 of src/main.py: `created_at BETWEEN ? AND ?`. -/
def inRange (start stop : String) (e : StockEvent) : Bool :=
  tsLe start e.created_at && tsLe e.created_at stop

/-- The ORDER BY comparison of line 117 of src/main.py. -/
def evLe (a b : StockEvent) : Prop := tsLe a.created_at b.created_at = true

instance : DecidableRel evLe := fun a b => by unfold evLe; infer_instance

/-- The JOIN of line 115 of src/main.py: resolve the event's item name at
query time; events whose item_id matches no item are dropped by the join. -/
def joinItemName (db : DB) (e : StockEvent) : Option (String × Int × String × String) :=
  (db.items.find? (fun it => it.id == e.item_id)).map
    (fun it => (it.name, e.delta, e.reason, e.created_at))

/-- The SELECT of lines 112-118 of src/main.py: filter events to the range,
order ascending by created_at, and join against items to resolve names. -/
def queryEventsInRange (db : DB) (start stop : String) :
    List (String × Int × String × String) :=
  (List.insertionSort evLe (db.stock_history.filter (inRange start stop))).filterMap
    (joinItemName db)

/-- The rows fetched by get_stock_history_by_date for a given date. -/
def historyRows (db : DB) (date : String) : List (String × Int × String × String) :=
  queryEventsInRange db (dayStart date) (dayEnd date)

/-- The invalid-date message of line 111 of src/main.py. -/
def invalidDateMsg : String :=
  "날짜 형식이 잘못되었습니다. YYYY-MM-DD로 입력하세요."

/-- The no-history message of line 122 of src/main.py. -/
def noHistoryMsg (date : String) : String :=
  date ++ "의 재고 변동 내역이 없습니다."

/-- One formatted history line (line 123 of src/main.py). -/
def fmtHistoryLine (r : String × Int × String × String) : String :=
  "[" ++ r.2.2.2 ++ "] " ++ r.1 ++ " | 변화량: " ++ toString r.2.1 ++ " | 사유: " ++
    orDashStr r.2.2.1

/-- get_stock_history_by_date (lines 101-124 of src/main.py): read-only query. -/
def get_stock_history_by_date (db : DB) (date : String) : String :=
  match parseDate date with
  | none => invalidDateMsg
  | some _ =>
    match historyRows db date with
    | [] => noHistoryMsg date
    | r :: rest => String.intercalate "\n" ((r :: rest).map fmtHistoryLine)

/-- One invocation of the change_item_stock tool, with the timestamp the
external clock produced during that invocation. -/
structure ChgCall where
  name : String
  delta : Int
  reason : Option String
  now : String
deriving DecidableEq

/-- Run a sequence of change_item_stock invocations, threading the state. -/
def runCalls (db : DB) (calls : List ChgCall) : DB :=
  calls.foldl (fun d c => (change_item_stock d c.name c.delta c.reason c.now).2) db

/-- Sum of the deltas of the history events belonging to item `iid`. -/
def sumDeltas (history : List StockEvent) (iid : Nat) : Int :=
  ((history.filter (fun e => e.item_id == iid)).map StockEvent.delta).sum

/-- The ledger invariant of spec section 3: each item's stock equals its
initial stock plus the sum of the recorded deltas for that item. -/
abbrev StockInv (init : Nat → Int) (db : DB) : Prop :=
  ∀ it ∈ db.items, it.stock = init it.id + sumDeltas db.stock_history it.id

/-- Primary-key well-formedness: item ids are pairwise distinct. -/
abbrev IdsNodup (db : DB) : Prop := (db.items.map Item.id).Nodup

/-! ## Helper lemmas -/

theorem find?_congr_pt {α : Type} {p q : α → Bool} (h : ∀ a, p a = q a) :
    ∀ l : List α, l.find? p = l.find? q
  | [] => rfl
  | a :: l => by
    rw [List.find?_cons, List.find?_cons, h a]
    cases q a
    · exact find?_congr_pt h l
    · rfl

theorem find?_name_map (l : List Item) (name : String) (f : Item → Item)
    (hname : ∀ it, (f it).name = it.name) :
    (l.map f).find? (fun it => it.name == name) =
      (l.find? (fun it => it.name == name)).map f := by
  rw [List.find?_map]
  exact congrArg _ (find?_congr_pt (fun a => by simp [Function.comp, hname]) l)

/-- The exact result of a successful change_item_stock call. -/
theorem change_success_eq (db : DB) (name : String) (delta : Int) (reason : Option String)
    (now : String) (item : Item)
    (hfind : findItemByName db name = some item) (hok : 0 ≤ item.stock + delta) :
    change_item_stock db name delta reason now =
      (chgSuccessMsg name item.stock (item.stock + delta) delta reason,
       { items := db.items.map (fun it =>
           if it.id == item.id then
             { it with stock := item.stock + delta, updated_at := now } else it),
         stock_history := db.stock_history ++
           [{ id := db.next_event_id, item_id := item.id, delta := delta,
              reason := reason.getD "", created_at := now }],
         next_event_id := db.next_event_id + 1 }) := by
  simp only [change_item_stock, hfind]
  rw [if_neg (by omega)]

/-! ## Claims about change_item_stock -/

/-- Claim C2: on an existing item, an adjustment that would drive the stock
negative returns the insufficient-stock failure carrying the pre-call stock
value, and leaves the whole database state (items and stock_history)
unchanged. -/
theorem insufficient_stock_no_mutation (db : DB) (name : String) (delta : Int)
    (reason : Option String) (now : String) (item : Item)
    (hfind : findItemByName db name = some item) (hneg : item.stock + delta < 0) :
    change_item_stock db name delta reason now = (insufficientMsg item.stock, db) := by
  simp only [change_item_stock, hfind]
  rw [if_pos hneg]

/-- Fixture item for concrete instantiations. -/
def itemMouse : Item :=
  { id := 1, name := "마우스", price := 25000, stock := 50,
    created_at := "2024-01-01 09:00:00", updated_at := "2024-01-01 09:00:00" }

/-- Fixture database holding only `itemMouse` and no history. -/
def dbMouse : DB := { items := [itemMouse], stock_history := [], next_event_id := 1 }

theorem insufficient_stock_no_mutation_witness :
    change_item_stock dbMouse "마우스" (-1000) none "2024-01-02 10:00:00" =
      (insufficientMsg itemMouse.stock, dbMouse) :=
  insufficient_stock_no_mutation dbMouse "마우스" (-1000) none "2024-01-02 10:00:00"
    itemMouse (by decide) (by decide)

/-- Claim C5: change_item_stock on a name matching no item returns the
not-found failure and performs no write to items or stock_history. -/
theorem change_item_stock_unknown_name_no_writes (db : DB) (name : String) (delta : Int)
    (reason : Option String) (now : String)
    (hfind : findItemByName db name = none) :
    change_item_stock db name delta reason now = (notFoundMsg name, db) := by
  simp only [change_item_stock, hfind]

theorem change_item_stock_unknown_name_no_writes_witness :
    change_item_stock { items := [], stock_history := [], next_event_id := 1 }
        "유령" 3 none "2024-01-02 10:00:00" =
      (notFoundMsg "유령", { items := [], stock_history := [], next_event_id := 1 }) :=
  change_item_stock_unknown_name_no_writes _ _ _ _ _ (by decide)

/-- Claim C3: the two writes of a successful change_item_stock are
all-or-nothing: every call either leaves both the items relation and the
stock_history relation untouched, or applies the stock update and the
history append together; no reachable state has one write without the
other. -/
theorem change_item_stock_all_or_nothing (db : DB) (name : String) (delta : Int)
    (reason : Option String) (now : String) :
    ((change_item_stock db name delta reason now).2.items = db.items ∧
     (change_item_stock db name delta reason now).2.stock_history = db.stock_history) ∨
    (∃ item, findItemByName db name = some item ∧ 0 ≤ item.stock + delta ∧
     (change_item_stock db name delta reason now).2.items =
       db.items.map (fun it =>
         if it.id == item.id then
           { it with stock := item.stock + delta, updated_at := now } else it) ∧
     (change_item_stock db name delta reason now).2.stock_history =
       db.stock_history ++
         [{ id := db.next_event_id, item_id := item.id, delta := delta,
            reason := reason.getD "", created_at := now }]) := by
  cases hfind : findItemByName db name with
  | none => left; simp [change_item_stock, hfind]
  | some item =>
    by_cases hneg : item.stock + delta < 0
    · left; simp [change_item_stock, hfind, hneg]
    · right
      refine ⟨item, rfl, by omega, ?_, ?_⟩ <;> simp [change_item_stock, hfind, hneg]

/-- Claim C4: on an existing item, an adjustment keeping the stock
non-negative succeeds: the returned message shows the previous and the new
stock, the item is found afterwards with stock s + delta and updated_at set
to the call's timestamp, and exactly one history event is appended carrying
the same delta, the same timestamp and the given (or empty) reason. -/
theorem change_item_stock_success_effects (db : DB) (name : String) (delta : Int)
    (reason : Option String) (now : String) (item : Item)
    (hfind : findItemByName db name = some item) (hok : 0 ≤ item.stock + delta) :
    (change_item_stock db name delta reason now).1 =
        chgSuccessMsg name item.stock (item.stock + delta) delta reason ∧
    findItemByName (change_item_stock db name delta reason now).2 name =
        some { item with stock := item.stock + delta, updated_at := now } ∧
    (change_item_stock db name delta reason now).2.stock_history =
        db.stock_history ++
          [{ id := db.next_event_id, item_id := item.id, delta := delta,
             reason := reason.getD "", created_at := now }] := by
  rw [change_success_eq db name delta reason now item hfind hok]
  refine ⟨rfl, ?_, rfl⟩
  unfold findItemByName
  rw [find?_name_map]
  · have : db.items.find? (fun it => it.name == name) = some item := hfind
    rw [this]
    simp
  · intro it
    by_cases h : (it.id == item.id) = true <;> simp [h]

theorem change_item_stock_success_effects_witness :
    (change_item_stock dbMouse "마우스" (-5) (some "sale") "2024-01-02 10:00:00").1 =
        chgSuccessMsg "마우스" itemMouse.stock (itemMouse.stock + (-5)) (-5) (some "sale") ∧
    findItemByName
        (change_item_stock dbMouse "마우스" (-5) (some "sale") "2024-01-02 10:00:00").2
        "마우스" =
        some { itemMouse with
               stock := itemMouse.stock + (-5),
               updated_at := "2024-01-02 10:00:00" } ∧
    (change_item_stock dbMouse "마우스" (-5) (some "sale")
        "2024-01-02 10:00:00").2.stock_history =
        dbMouse.stock_history ++
          [{ id := dbMouse.next_event_id, item_id := itemMouse.id, delta := -5,
             reason := (some "sale").getD "", created_at := "2024-01-02 10:00:00" }] :=
  change_item_stock_success_effects dbMouse "마우스" (-5) (some "sale")
    "2024-01-02 10:00:00" itemMouse (by decide) (by decide)

/-- Claim C7: a zero delta on an existing item is permitted: the call
succeeds (the candidate stock equals the current stock) and still appends a
history event with delta 0; zero is not special-cased. -/
theorem zero_delta_permitted_and_logged (db : DB) (name : String)
    (reason : Option String) (now : String) (item : Item)
    (hfind : findItemByName db name = some item) (hstock : 0 ≤ item.stock) :
    (change_item_stock db name 0 reason now).1 =
        chgSuccessMsg name item.stock item.stock 0 reason ∧
    (change_item_stock db name 0 reason now).2.stock_history =
        db.stock_history ++
          [{ id := db.next_event_id, item_id := item.id, delta := 0,
             reason := reason.getD "", created_at := now }] := by
  have h := change_success_eq db name 0 reason now item hfind (by omega)
  rw [h]
  simp

theorem zero_delta_permitted_and_logged_witness :
    (change_item_stock dbMouse "마우스" 0 none "2024-01-02 10:00:00").1 =
        chgSuccessMsg "마우스" itemMouse.stock itemMouse.stock 0 none ∧
    (change_item_stock dbMouse "마우스" 0 none "2024-01-02 10:00:00").2.stock_history =
        dbMouse.stock_history ++
          [{ id := dbMouse.next_event_id, item_id := itemMouse.id, delta := 0,
             reason := (none : Option String).getD "",
             created_at := "2024-01-02 10:00:00" }] :=
  zero_delta_permitted_and_logged dbMouse "마우스" none "2024-01-02 10:00:00" itemMouse
    (by decide) (by decide)

/-! ## The ledger invariant (claim C1) -/

theorem item_id_update (item : Item) (stock' : Int) (now : String) (it : Item) :
    (if it.id == item.id then
       { it with stock := stock', updated_at := now } else it).id = it.id := by
  by_cases h : (it.id == item.id) = true <;> simp [h]

theorem change_preserves_ids (db : DB) (name : String) (delta : Int)
    (reason : Option String) (now : String) :
    (change_item_stock db name delta reason now).2.items.map Item.id =
      db.items.map Item.id := by
  cases hfind : findItemByName db name with
  | none => simp [change_item_stock, hfind]
  | some item =>
    by_cases hneg : item.stock + delta < 0
    · simp [change_item_stock, hfind, hneg]
    · rw [change_success_eq db name delta reason now item hfind (by omega)]
      rw [List.map_map]
      exact List.map_congr_left fun a _ => item_id_update item (item.stock + delta) now a

theorem idsNodup_step (db : DB) (name : String) (delta : Int) (reason : Option String)
    (now : String) (h : IdsNodup db) :
    IdsNodup (change_item_stock db name delta reason now).2 := by
  have h2 := change_preserves_ids db name delta reason now
  unfold IdsNodup at h ⊢
  rw [h2]
  exact h

theorem sumDeltas_append (h : List StockEvent) (ev : StockEvent) (iid : Nat) :
    sumDeltas (h ++ [ev]) iid =
      sumDeltas h iid + (if ev.item_id == iid then ev.delta else 0) := by
  unfold sumDeltas
  rw [List.filter_append]
  by_cases hc : (ev.item_id == iid) = true <;> simp [List.filter, hc]

theorem stockInv_step (init : Nat → Int) (db : DB) (name : String) (delta : Int)
    (reason : Option String) (now : String)
    (hids : IdsNodup db) (hinv : StockInv init db) :
    StockInv init (change_item_stock db name delta reason now).2 := by
  cases hfind : findItemByName db name with
  | none => simpa [change_item_stock, hfind] using hinv
  | some item =>
    by_cases hneg : item.stock + delta < 0
    · simpa [change_item_stock, hfind, hneg] using hinv
    · rw [change_success_eq db name delta reason now item hfind (by omega)]
      intro it' hit'
      simp only [List.mem_map] at hit'
      obtain ⟨it, hitmem, rfl⟩ := hit'
      have hitem_mem : item ∈ db.items := List.mem_of_find?_eq_some hfind
      have hinv_item := hinv item hitem_mem
      have hinv_it := hinv it hitmem
      simp only [sumDeltas_append]
      by_cases hid : it.id = item.id
      · have heq : it = item := List.inj_on_of_nodup_map hids hitmem hitem_mem hid
        subst heq
        simp only [beq_self_eq_true, if_true]
        omega
      · have hbeq : (it.id == item.id) = false := by simp [hid]
        have hbeq' : (item.id == it.id) = false := by simp; omega
        simp only [hbeq, Bool.false_eq_true, if_false, hbeq']
        omega

theorem stockInv_runCalls (init : Nat → Int) (calls : List ChgCall) :
    ∀ db : DB, IdsNodup db → StockInv init db → StockInv init (runCalls db calls) := by
  induction calls with
  | nil => intro db _ hinv; exact hinv
  | cons c cs ih =>
    intro db hids hinv
    have hstep : runCalls db (c :: cs) =
        runCalls (change_item_stock db c.name c.delta c.reason c.now).2 cs := rfl
    rw [hstep]
    exact ih _ (idsNodup_step db c.name c.delta c.reason c.now hids)
      (stockInv_step init db c.name c.delta c.reason c.now hids hinv)

/-- Claim C1: starting from a state whose history is empty (so every item
carries its stock at creation) and whose item ids are distinct, after any
sequence of change_item_stock calls every item's stock equals its initial
stock at creation plus the sum of the deltas of the stock_history events
recorded for that item. -/
theorem stock_invariant_holds_after_runCalls (db0 : DB) (init : Nat → Int)
    (calls : List ChgCall)
    (hids : IdsNodup db0) (hhist : db0.stock_history = [])
    (hinit : ∀ it ∈ db0.items, init it.id = it.stock) :
    StockInv init (runCalls db0 calls) := by
  apply stockInv_runCalls init calls db0 hids
  intro it hit
  rw [hhist]
  simp [sumDeltas, hinit it hit]

theorem stock_invariant_holds_after_runCalls_witness :
    StockInv (fun i => if i = 1 then 50 else 0)
      (runCalls dbMouse
        [{ name := "마우스", delta := -5, reason := some "sale",
           now := "2024-01-02 10:00:00" },
         { name := "마우스", delta := 7, reason := none,
           now := "2024-01-03 11:00:00" }]) :=
  stock_invariant_holds_after_runCalls dbMouse (fun i => if i = 1 then 50 else 0)
    [{ name := "마우스", delta := -5, reason := some "sale",
       now := "2024-01-02 10:00:00" },
     { name := "마우스", delta := 7, reason := none,
       now := "2024-01-03 11:00:00" }]
    (by decide) rfl (by decide)

/-- Claim C10: an empty-string reason behaves exactly like an absent reason:
the call returns the same message and the same state (the stored event's
reason is the empty string), the success message displays the placeholder
dash for both, and a history line for an event with empty reason displays
the placeholder dash instead of the reason. -/
theorem empty_reason_equals_absent_reason :
    (∀ (db : DB) (name : String) (delta : Int) (now : String),
        change_item_stock db name delta (some "") now =
          change_item_stock db name delta none now) ∧
    orDash (some "") = "-" ∧ orDash none = "-" ∧
    (∀ (ts iname : String) (delta : Int),
        fmtHistoryLine (iname, delta, "", ts) =
          "[" ++ ts ++ "] " ++ iname ++ " | 변화량: " ++ toString delta ++
            " | 사유: " ++ "-") := by
  refine ⟨?_, rfl, rfl, fun ts iname delta => rfl⟩
  intro db name delta now
  unfold change_item_stock
  cases hfind : findItemByName db name with
  | none => rfl
  | some item =>
    by_cases hneg : item.stock + delta < 0 <;>
      simp [hneg, chgSuccessMsg, orDash, Option.getD]

/-! ## Order properties of the timestamp comparison -/

theorem lexLe_total : ∀ as bs : List Char, lexLe as bs = true ∨ lexLe bs as = true
  | [], _ => Or.inl rfl
  | _ :: _, [] => Or.inr rfl
  | a :: as, b :: bs => by
    rcases Nat.lt_trichotomy a.toNat b.toNat with h | h | h
    · left; simp [lexLe, h]
    · have h1 : ¬a.toNat < b.toNat := by omega
      have h2 : ¬b.toNat < a.toNat := by omega
      simp only [lexLe, h1, h2, if_false]
      exact lexLe_total as bs
    · right; simp [lexLe, h]

theorem lexLe_trans : ∀ as bs cs : List Char,
    lexLe as bs = true → lexLe bs cs = true → lexLe as cs = true
  | [], _, _ => fun _ _ => rfl
  | _ :: _, [], _ => fun h1 _ => by simp [lexLe] at h1
  | _ :: _, _ :: _, [] => fun _ h2 => by simp [lexLe] at h2
  | a :: as, b :: bs, c :: cs => fun h1 h2 => by
    rcases Nat.lt_trichotomy a.toNat b.toNat with hab | hab | hab
    · rcases Nat.lt_trichotomy b.toNat c.toNat with hbc | hbc | hbc
      · simp [lexLe, Nat.lt_trans hab hbc]
      · simp [lexLe, hbc ▸ hab]
      · have hn1 : ¬b.toNat < c.toNat := by omega
        simp [lexLe, hn1, hbc] at h2
    · have ha1 : ¬a.toNat < b.toNat := by omega
      have ha2 : ¬b.toNat < a.toNat := by omega
      simp only [lexLe, ha1, ha2, if_false] at h1
      rcases Nat.lt_trichotomy b.toNat c.toNat with hbc | hbc | hbc
      · simp [lexLe, hab ▸ hbc]
      · have hc1 : ¬a.toNat < c.toNat := by omega
        have hc2 : ¬c.toNat < a.toNat := by omega
        have hb1 : ¬b.toNat < c.toNat := by omega
        have hb2 : ¬c.toNat < b.toNat := by omega
        simp only [lexLe, hb1, hb2, if_false] at h2
        simp only [lexLe, hc1, hc2, if_false]
        exact lexLe_trans as bs cs h1 h2
      · have hn1 : ¬b.toNat < c.toNat := by omega
        simp [lexLe, hn1, hbc] at h2
    · have hn1 : ¬a.toNat < b.toNat := by omega
      simp [lexLe, hn1, hab] at h1

instance : IsTotal StockEvent evLe :=
  ⟨fun a b => lexLe_total a.created_at.data b.created_at.data⟩

instance : IsTrans StockEvent evLe :=
  ⟨fun a b c => lexLe_trans a.created_at.data b.created_at.data c.created_at.data⟩

/-! ## Structure of well-formed dates -/

theorem splitDash_ne_nil : ∀ cs : List Char, splitDash cs ≠ []
  | [] => by simp [splitDash]
  | c :: cs => by
    by_cases h : c = '-'
    · simp [splitDash, h]
    · simp only [splitDash, if_neg h]
      cases hs : splitDash cs <;> simp

theorem joinDash_splitDash : ∀ cs : List Char, joinDash (splitDash cs) = cs
  | [] => rfl
  | c :: cs => by
    have ih := joinDash_splitDash cs
    have hne := splitDash_ne_nil cs
    by_cases h : c = '-'
    · simp only [splitDash, if_pos h]
      cases hs : splitDash cs with
      | nil => exact absurd hs hne
      | cons g gs =>
        rw [hs] at ih
        subst h
        simpa [joinDash] using ih
    · simp only [splitDash, if_neg h]
      cases hs : splitDash cs with
      | nil => exact absurd hs hne
      | cons g gs =>
        rw [hs] at ih
        cases gs with
        | nil => simpa [joinDash] using congrArg (c :: ·) ih
        | cons g2 gs2 =>
          simp only [joinDash, List.cons_append] at ih ⊢
          rw [ih]

theorem parseDate_some_shape (s : String) (p : Nat × Nat × Nat)
    (hp : parseDate s = some p) :
    ∃ ys ms ds, splitDash s.data = [ys, ms, ds] ∧ validNumGroup ys 4 = true ∧
      validNumGroup ms 2 = true ∧ validNumGroup ds 2 = true := by
  unfold parseDate at hp
  split at hp
  next ys ms ds heq =>
    split at hp
    next hv =>
      simp only [Bool.and_eq_true] at hv
      exact ⟨ys, ms, ds, heq, hv.1.1, hv.1.2, hv.2⟩
    next => exact absurd hp (by simp)
  next => exact absurd hp (by simp)

theorem validNumGroup_head (cs : List Char) (hv : validNumGroup cs 4 = true) :
    ∃ c t, cs = c :: t ∧ c.isDigit = true := by
  unfold validNumGroup at hv
  simp only [Bool.and_eq_true] at hv
  cases cs with
  | nil => simp at hv
  | cons c t =>
    refine ⟨c, t, rfl, ?_⟩
    have h2 := hv.2
    simp only [List.all_cons, Bool.and_eq_true] at h2
    exact h2.1

theorem parseDate_some_digit_head (s : String) (p : Nat × Nat × Nat)
    (hp : parseDate s = some p) :
    ∃ c t, s.data = c :: t ∧ c.isDigit = true := by
  obtain ⟨ys, ms, ds, hsp, hy, _, _⟩ := parseDate_some_shape s p hp
  obtain ⟨c, t, hcs, hcd⟩ := validNumGroup_head ys hy
  have hj := joinDash_splitDash s.data
  rw [hsp] at hj
  refine ⟨c, t ++ '-' :: (ms ++ '-' :: ds), ?_, hcd⟩
  rw [← hj]
  simp [joinDash, hcs]

/-! ## Distinctness of the three kinds of result strings -/

theorem intercalate_go_data :
    ∀ (l : List String) (acc s : String),
      ∃ t : List Char, (String.intercalate.go acc s l).data = acc.data ++ t
  | [], _, _ => ⟨[], by simp [String.intercalate.go]⟩
  | a :: as, acc, s => by
    obtain ⟨t', ht'⟩ := intercalate_go_data as (acc ++ s ++ a) s
    exact ⟨s.data ++ a.data ++ t', by
      simp [String.intercalate.go, ht', String.data_append]⟩

theorem intercalate_cons_data (a : String) (l : List String) :
    ∃ t : List Char, (String.intercalate "\n" (a :: l)).data = a.data ++ t := by
  simp only [String.intercalate]
  exact intercalate_go_data l a "\n"

theorem fmt_data_head (r : String × Int × String × String) :
    ∃ u, (fmtHistoryLine r).data = '[' :: u := by
  unfold fmtHistoryLine
  simp only [String.data_append, List.append_assoc]
  exact ⟨_, rfl⟩

theorem noHistoryMsg_ne_empty (date : String) : noHistoryMsg date ≠ "" := by
  intro h
  have hd : (noHistoryMsg date).data = [] := congrArg String.data h
  rw [noHistoryMsg, String.data_append] at hd
  rcases List.append_eq_nil.mp hd with ⟨_, h2⟩
  exact absurd h2 (by decide)

theorem noHistoryMsg_ne_invalid (date : String) (c : Char) (t : List Char)
    (hdata : date.data = c :: t) (hc : c.isDigit = true) :
    noHistoryMsg date ≠ invalidDateMsg := by
  intro h
  have h1 : (noHistoryMsg date).data.head? = some c := by
    rw [noHistoryMsg, String.data_append, hdata]
    rfl
  rw [h] at h1
  have h2 : invalidDateMsg.data.head? = some '날' := by decide
  rw [h2] at h1
  have hc' : c = '날' := (Option.some.inj h1).symm
  rw [hc'] at hc
  exact absurd hc (by decide)

/-! ## Claims about get_stock_history_by_date -/

/-- Claim C6: get_stock_history_by_date fails with the invalid-date message
exactly when the input is not a well-formed YYYY-MM-DD calendar date, and on
that failure the result does not depend on the store (which the read-only
query leaves unchanged in any case). -/
theorem history_invalid_date_iff_malformed (date : String) :
    (parseDate date = none →
      ∀ db : DB, get_stock_history_by_date db date = invalidDateMsg) ∧
    (∀ p, parseDate date = some p →
      ∀ db : DB, get_stock_history_by_date db date ≠ invalidDateMsg) := by
  constructor
  · intro hn db
    simp [get_stock_history_by_date, hn]
  · intro p hp db
    obtain ⟨c, t, hdata, hdig⟩ := parseDate_some_digit_head date p hp
    simp only [get_stock_history_by_date, hp]
    cases hrows : historyRows db date with
    | nil => exact noHistoryMsg_ne_invalid date c t hdata hdig
    | cons r rest =>
      intro h
      have h' : String.intercalate "\n"
          (fmtHistoryLine r :: rest.map fmtHistoryLine) = invalidDateMsg := h
      obtain ⟨tl, htl⟩ := intercalate_cons_data (fmtHistoryLine r) (rest.map fmtHistoryLine)
      have hd := congrArg String.data h'
      rw [htl] at hd
      obtain ⟨u, hu⟩ := fmt_data_head r
      have hhead : (invalidDateMsg.data).head? = some '[' := by
        rw [← hd, hu]; rfl
      have h2 : invalidDateMsg.data.head? = some '날' := by decide
      rw [h2] at hhead
      exact absurd (Option.some.inj hhead) (by decide)

theorem history_invalid_date_iff_malformed_witness :
    get_stock_history_by_date dbMouse "not-a-date" = invalidDateMsg :=
  (history_invalid_date_iff_malformed "not-a-date").1 (by decide) dbMouse

/-- Claim C8: for a well-formed date whose inclusive day range contains no
stock_history event, get_stock_history_by_date returns the explicit
no-events message for that date, which is neither the empty string (an
empty joined list) nor the invalid-date error. -/
theorem history_empty_day_signal (db : DB) (date : String) (p : Nat × Nat × Nat)
    (hp : parseDate date = some p)
    (hnone : ∀ e ∈ db.stock_history, inRange (dayStart date) (dayEnd date) e = false) :
    get_stock_history_by_date db date = noHistoryMsg date ∧
    noHistoryMsg date ≠ "" ∧ noHistoryMsg date ≠ invalidDateMsg := by
  have hrows : historyRows db date = [] := by
    unfold historyRows queryEventsInRange
    have hf : db.stock_history.filter (inRange (dayStart date) (dayEnd date)) = [] :=
      List.filter_eq_nil_iff.mpr (by intro e he; simp [hnone e he])
    rw [hf]
    rfl
  refine ⟨?_, noHistoryMsg_ne_empty date, ?_⟩
  · simp [get_stock_history_by_date, hp, hrows]
  · obtain ⟨c, t, hdata, hdig⟩ := parseDate_some_digit_head date p hp
    exact noHistoryMsg_ne_invalid date c t hdata hdig

/-- Fixture database: `dbMouse` after a stock change on 2024-01-03. -/
def dbMouse2 : DB :=
  (change_item_stock dbMouse "마우스" (-5) (some "sale") "2024-01-03 10:00:00").2

theorem history_empty_day_signal_witness :
    get_stock_history_by_date dbMouse2 "2024-01-02" = noHistoryMsg "2024-01-02" ∧
    noHistoryMsg "2024-01-02" ≠ "" ∧ noHistoryMsg "2024-01-02" ≠ invalidDateMsg :=
  history_empty_day_signal dbMouse2 "2024-01-02" (2024, 1, 2) (by decide) (by decide)

/-- Claim C9: for a well-formed date with events in its inclusive day range,
get_stock_history_by_date returns the newline-joined formatted rows; the
rows are ordered ascending by created_at, each row carries the item name
resolved by joining on item_id at query time together with the event's
delta, reason and timestamp from an event inside the inclusive range, and a
row whose reason is empty is formatted with the placeholder dash. -/
theorem history_day_rows_ordered_and_formatted (db : DB) (date : String)
    (p : Nat × Nat × Nat) (hp : parseDate date = some p)
    (hne : historyRows db date ≠ []) :
    get_stock_history_by_date db date =
      String.intercalate "\n" ((historyRows db date).map fmtHistoryLine) ∧
    (historyRows db date).Pairwise (fun a b => tsLe a.2.2.2 b.2.2.2 = true) ∧
    (∀ r ∈ historyRows db date, ∃ e ∈ db.stock_history, ∃ it ∈ db.items,
        (it.id == e.item_id) = true ∧ r = (it.name, e.delta, e.reason, e.created_at) ∧
        tsLe (dayStart date) e.created_at = true ∧
        tsLe e.created_at (dayEnd date) = true) ∧
    (∀ r ∈ historyRows db date, r.2.2.1 = "" →
        fmtHistoryLine r =
          "[" ++ r.2.2.2 ++ "] " ++ r.1 ++ " | 변화량: " ++ toString r.2.1 ++
            " | 사유: " ++ "-") := by
  refine ⟨?_, ?_, ?_, ?_⟩
  · cases hrows : historyRows db date with
    | nil => exact absurd hrows hne
    | cons r rest => simp [get_stock_history_by_date, hp, hrows]
  · unfold historyRows queryEventsInRange
    rw [List.pairwise_filterMap]
    have hs : List.Pairwise evLe
        (List.insertionSort evLe
          (db.stock_history.filter (inRange (dayStart date) (dayEnd date)))) :=
      List.sorted_insertionSort evLe _
    refine List.Pairwise.imp ?_ hs
    intro e e' hee' b hb b' hb'
    rw [Option.mem_def, joinItemName] at hb hb'
    obtain ⟨it, _, hfb⟩ := Option.map_eq_some'.mp hb
    obtain ⟨it', _, hfb'⟩ := Option.map_eq_some'.mp hb'
    rw [← hfb, ← hfb']
    exact hee'
  · intro r hr
    unfold historyRows queryEventsInRange at hr
    rw [List.mem_filterMap] at hr
    obtain ⟨e, he, hje⟩ := hr
    rw [List.mem_insertionSort, List.mem_filter] at he
    obtain ⟨hemem, hrange⟩ := he
    rw [inRange, Bool.and_eq_true] at hrange
    rw [joinItemName] at hje
    obtain ⟨it, hfind, hfb⟩ := Option.map_eq_some'.mp hje
    have hid : (it.id == e.item_id) = true := by
      have hps := List.find?_some hfind
      simpa using hps
    exact ⟨e, hemem, it, List.mem_of_find?_eq_some hfind, hid,
      hfb.symm, hrange.1, hrange.2⟩
  · intro r _ hre
    rw [fmtHistoryLine, orDashStr, hre]
    simp

/-- Fixture database: `dbMouse` after a stock change on 2024-01-02 with an
empty reason string. -/
def dbMouse3 : DB :=
  (change_item_stock dbMouse "마우스" 3 (some "") "2024-01-02 10:00:00").2

theorem history_day_rows_ordered_and_formatted_witness :
    get_stock_history_by_date dbMouse3 "2024-01-02" =
      String.intercalate "\n" ((historyRows dbMouse3 "2024-01-02").map fmtHistoryLine) ∧
    (historyRows dbMouse3 "2024-01-02").Pairwise
      (fun a b => tsLe a.2.2.2 b.2.2.2 = true) ∧
    (∀ r ∈ historyRows dbMouse3 "2024-01-02", ∃ e ∈ dbMouse3.stock_history,
        ∃ it ∈ dbMouse3.items,
        (it.id == e.item_id) = true ∧ r = (it.name, e.delta, e.reason, e.created_at) ∧
        tsLe (dayStart "2024-01-02") e.created_at = true ∧
        tsLe e.created_at (dayEnd "2024-01-02") = true) ∧
    (∀ r ∈ historyRows dbMouse3 "2024-01-02", r.2.2.1 = "" →
        fmtHistoryLine r =
          "[" ++ r.2.2.2 ++ "] " ++ r.1 ++ " | 변화량: " ++ toString r.2.1 ++
            " | 사유: " ++ "-") :=
  history_day_rows_ordered_and_formatted dbMouse3 "2024-01-02" (2024, 1, 2)
    (by decide) (by decide)

end Inventory
